import Mathlib

/-!
Shallow embedding of the fcp recursive file-copy engine (src/lib.rs).

The repository's `filesystem` module (thin syscall wrappers) is declared by
`pub mod filesystem` but its source is not part of the snapshot; its
operations are modelled from the spec's collaborator interface (section 6)
as an explicit environment `Env` of fallible destination-side operations
plus an inductive tree `FNode` describing what the classifier and
directory listing report for the source side.  Destination-side effects
are recorded in an event trace.  The rayon parallel fan-out
(`into_par_iter().map(...).any(identity)`) is modelled as a deterministic
fold that processes every element; its boolean result is the OR over all
per-entry results, which is rayon's documented result value.

So that every definition is structurally recursive (and hence computable
by the kernel), the recursive core is the mutual pair
`copyFileImpl`/`copyChildren`; the source's `copy_file` and
`copy_directory` factorings are recovered afterwards as the definitions
`copyFile` and `copyDirectory` together with the definitional equations
`copyFileImpl_directory_eq` and `copyChildren_cons_ok`.
-/

namespace Fcp
/-- Paths are modelled as lists of components, as produced by `PathBuf`. -/
abbrev Path := List String

/-- Rendering of a path for error messages, mirroring `Path::display`. -/
def Path.display (p : Path) : String := String.intercalate "/" p

/-- Mirrors `std::path::Path::file_name`: the final component when it is a
normal component, `none` for the root path or a path ending in `..`. -/
def Path.fileNameOf (p : Path) : Option String :=
  match p.getLast? with
  | some c => if c = ".." then none else some c
  | none => none

/-- Joining one extra component onto a path, mirroring `Path::join(name)`. -/
def Path.joinName (p : Path) (name : String) : Path := p ++ [name]

mutual
/-- What the classifier (`fs::file_type`, lstat semantics) reports for a
source entry, together with the data the copy needs: directory listings,
symlink targets, and the permission modes carried by the metadata.
`statError` models the case in which reading the metadata itself fails. -/
inductive FNode where
  | regular : FNode
  | directory : Nat → List DirItem → FNode
  | symlink : String → FNode
  | fifo : Nat → FNode
  | socket : FNode
  | blockDevice : Nat → FNode
  | charDevice : Nat → FNode
  | statError : String → FNode

/-- One element yielded by `fs::read_dir`: either a named child entry or a
per-entry iteration error (`Err(err)` in the `read_dir` stream). -/
inductive DirItem where
  | ok : String → FNode → DirItem
  | err : String → DirItem
end

/-- Modelled from the spec: the destination-side filesystem operations of
the missing `filesystem` module (`copy`, `symlink`, `mkfifo`,
`create_dir`, `read_dir`, `read_link`, open/create/io-copy for devices,
and `symlink_metadata`).  Each operation either succeeds or fails with an
error message; `lstat` reports the destination node without following a
final symlink, per the spec's lstat semantics for `symlink_metadata`. -/
structure Env where
  copyErr : Path → Path → Option String
  symlinkErr : String → Path → Option String
  mkfifoErr : Path → Option String
  createDirErr : Path → Option String
  readDirErr : Path → Option String
  readLinkErr : Path → Option String
  devErr : Path → Path → Option String
  lstat : Path → Except String FNode

/-- Observable effects of a run: destination-side mutations plus error
lines printed to the error stream (`eprintln!`). -/
inductive Event where
  | fileCopy : Path → Path → Event
  | dirCreate : Path → Nat → Event
  | linkCreate : Path → String → Event
  | fifoCreate : Path → Nat → Event
  | devWrite : Path → Path → Nat → Event
  | printErr : String → Event
deriving DecidableEq, Repr

/-- The destination path an event mutates, if it mutates one. -/
def Event.writesTo : Event → Option Path
  | .fileCopy _ dest => some dest
  | .dirCreate dest _ => some dest
  | .linkCreate dest _ => some dest
  | .fifoCreate dest _ => some dest
  | .devWrite _ dest _ => some dest
  | .printErr _ => none

/-- Whether an event is an error line on the error stream. -/
def Event.isPrintErr : Event → Bool
  | .printErr _ => true
  | _ => false

/-- The destination paths mutated by a trace. -/
def writes (tr : List Event) : List Path := tr.filterMap Event.writesTo

/-- Mirrors the `identity` helper of src/lib.rs used with `any`. -/
def identity (item : Bool) : Bool := item

/-- The `match copy_file_impl(source, dest) { Err | Ok }` wrapper of
`copy_file`: an error is printed and becomes a `true` (had-error) result. -/
def catchErr : Except String Bool × List Event → Bool × List Event
  | (.error e, tr) => (true, tr ++ [Event.printErr e])
  | (.ok hadError, tr) => (hadError, tr)

mutual
/-- Embeds `copy_file_impl`: dispatch on the classified file type.  The
`statError` case models `fs::file_type(source)?` failing before anything
else happens.  The `directory` case carries the body of `copy_directory`
inline (see `copyDirectory` and `copyFileImpl_directory_eq` below for the
source's factoring). -/
def copyFileImpl (env : Env) (node : FNode) (src dest : Path) :
    Except String Bool × List Event :=
  match node with
  | .statError msg => (.error msg, [])
  | .regular =>
    match env.copyErr src dest with
    | some m => (.error m, [])
    | none => (.ok false, [Event.fileCopy src dest])
  | .directory mode entries =>
    match env.createDirErr dest with
    | some m => (.error m, [])
    | none =>
      match env.readDirErr src with
      | some m => (.error m, [Event.dirCreate dest mode])
      | none =>
        let results := copyChildren env entries src dest
        (.ok ((results.map Prod.fst).any identity),
          Event.dirCreate dest mode :: (results.map Prod.snd).flatten)
  | .symlink target =>
    match env.readLinkErr src with
    | some m => (.error m, [])
    | none =>
      match env.symlinkErr target dest with
      | some m => (.error m, [])
      | none => (.ok false, [Event.linkCreate dest target])
  | .fifo mode =>
    match env.mkfifoErr dest with
    | some m => (.error m, [])
    | none => (.ok false, [Event.fifoCreate dest mode])
  | .socket => (.error (Path.display src ++ ": " ++ "sockets cannot be copied"), [])
  | .blockDevice mode =>
    match env.devErr src dest with
    | some m => (.error m, [])
    | none => (.ok false, [Event.devWrite src dest mode])
  | .charDevice mode =>
    match env.devErr src dest with
    | some m => (.error m, [])
    | none => (.ok false, [Event.devWrite src dest mode])
termination_by structural node

/-- Embeds the per-entry closure mapped over the directory listing, one
result per listed item: an `Ok` entry is dispatched through `copy_file` at
`(entry.path(), dest.join(entry.file_name()))`, an `Err` entry is printed
and counts as a failure. -/
def copyChildren (env : Env) (items : List DirItem) (src dest : Path) :
    List (Bool × List Event) :=
  match items with
  | [] => []
  | DirItem.ok name child :: rest =>
    catchErr (copyFileImpl env child (Path.joinName src name) (Path.joinName dest name)) ::
      copyChildren env rest src dest
  | DirItem.err msg :: rest =>
    (true, [Event.printErr msg]) :: copyChildren env rest src dest
termination_by structural items
end

/-- Embeds `copy_file`: runs `copy_file_impl` and converts an error into a
printed message plus a `true` (had-error) result. -/
def copyFile (env : Env) (node : FNode) (src dest : Path) : Bool × List Event :=
  match copyFileImpl env node src dest with
  | (.error e, tr) => (true, tr ++ [Event.printErr e])
  | (.ok hadError, tr) => (hadError, tr)

/-- Embeds `copy_directory` in the source's own factoring: create the
destination directory with the source directory's mode, list the source,
then map the per-entry closure over every entry and aggregate with
`any identity`. -/
def copyDirectory (env : Env) (mode : Nat) (entries : List DirItem) (src dest : Path) :
    Except String Bool × List Event :=
  match env.createDirErr dest with
  | some m => (.error m, [])
  | none =>
    match env.readDirErr src with
    | some m => (.error m, [Event.dirCreate dest mode])
    | none =>
      let results := copyChildren env entries src dest
      (.ok ((results.map Prod.fst).any identity),
        Event.dirCreate dest mode :: (results.map Prod.snd).flatten)

/-- The per-entry closure of `copy_directory`, as a standalone function of
the directory item, used to state aggregation facts. -/
def childResult (env : Env) (src dest : Path) : DirItem → Bool × List Event
  | .ok name child => copyFile env child (Path.joinName src name) (Path.joinName dest name)
  | .err msg => (true, [Event.printErr msg])

/-- Outcome of a whole invocation: either the process was terminated by
`fatal` (printing the message and exiting with a non-zero status), or the
copy ran to completion with the aggregated had-error boolean.  Modelled
from the spec: the binary's exit-code mapping (exit 0 iff no entry failed,
1 otherwise) lives in the missing `main`, not in src/lib.rs. -/
inductive FcpResult where
  | fatalErr : String → FcpResult
  | done : Bool → FcpResult
deriving DecidableEq, Repr

/-- Modelled from the spec: the process exit code, 1 for a `fatal`
termination and otherwise 1 exactly when the aggregated boolean reports a
failure. -/
def exitCode : FcpResult → Nat
  | .fatalErr _ => 1
  | .done hadError => if hadError then 1 else 0

/-- Mirrors `Metadata::is_dir` on the classified node standing in for the
metadata. -/
def isDirNode : FNode → Bool
  | .directory _ _ => true
  | _ => false

/-- The per-source closure of `copy_many`: extract the file name (printing
`invalid file path` and failing this source if there is none), then
`copy_file(source, dest.join(file_name))`.  The classifier's verdict for a
top-level source path is supplied by `tree`. -/
def copyManyItem (env : Env) (tree : Path → FNode) (dest source : Path) :
    Bool × List Event :=
  match Path.fileNameOf source with
  | none => (true, [Event.printErr (Path.display source ++ ": invalid file path")])
  | some name => copyFile env (tree source) source (Path.joinName dest name)

/-- Embeds `copy_many`: check that the destination's symlink-unaware
metadata exists and is a directory (otherwise `fatal`), then map the
per-source closure over every source and aggregate with `any identity`. -/
def copyMany (env : Env) (tree : Path → FNode) (sources : List Path) (dest : Path) :
    FcpResult × List Event :=
  match env.lstat dest with
  | .error m => (.fatalErr m, [Event.printErr m])
  | .ok metadata =>
    if isDirNode metadata then
      let results := sources.map (copyManyItem env tree dest)
      (.done ((results.map Prod.fst).any identity), (results.map Prod.snd).flatten)
    else
      let m := Path.display dest ++ " is not a directory"
      (.fatalErr m, [Event.printErr m])

/-- Splitting off the last element of a nonempty list, mirroring
`split_last`: `splitLastAux x ys = (initial, last)` for the list
`x :: ys`. -/
def splitLastAux (x : Path) : List Path → List Path × Path
  | [] => ([], x)
  | y :: ys =>
    let (initial, last) := splitLastAux y ys
    (x :: initial, last)

/-- The usage message printed by `fatal` for fewer than two arguments. -/
def usageMessage : String := "Please provide at least two arguments"

/-- Embeds `fcp`: dispatch on the number of arguments — fatal usage error
for fewer than two, single `copy_file` for exactly two, and `copy_many`
on (all but last, last) for three or more. -/
def fcp (env : Env) (tree : Path → FNode) (args : List Path) : FcpResult × List Event :=
  match args with
  | [] => (.fatalErr usageMessage, [Event.printErr usageMessage])
  | [_] => (.fatalErr usageMessage, [Event.printErr usageMessage])
  | [source, dest] =>
    let (hadError, tr) := copyFile env (tree source) source dest
    (.done hadError, tr)
  | a :: b :: c :: rest =>
    let (sources, dest) := splitLastAux a (b :: c :: rest)
    copyMany env tree sources dest

/-- Invariant tying a `copy_file_impl` outcome to its trace: an `ok`
had-error boolean equals the presence of a printed error line in the
trace, while an `error` outcome has printed nothing yet (the catch site
in `copy_file` prints it). -/
def ImplInv : Except String Bool × List Event → Prop
  | (.ok hadError, tr) => hadError = tr.any Event.isPrintErr
  | (.error _, tr) => tr.any Event.isPrintErr = false

/-- Environment in which every destination-side operation succeeds and the
destination pre-exists as a directory. -/
def envOK : Env :=
  ⟨fun _ _ => none, fun _ _ => none, fun _ => none, fun _ => none,
    fun _ => none, fun _ => none, fun _ _ => none,
    fun _ => .ok (.directory 493 [])⟩

/-- Environment in which creating the destination directory is denied. -/
def envDirDenied : Env :=
  ⟨fun _ _ => none, fun _ _ => none, fun _ => none,
    fun _ => some "d: permission denied", fun _ => none, fun _ => none,
    fun _ _ => none, fun _ => .ok (.directory 493 [])⟩

/-- Environment in which the destination path's metadata cannot be read
(the destination does not exist). -/
def envNoDest : Env :=
  ⟨fun _ _ => none, fun _ _ => none, fun _ => none, fun _ => none,
    fun _ => none, fun _ => none, fun _ _ => none,
    fun _ => .error "dir: No such file or directory"⟩

/-- Environment in which the destination path is a symlink whose target
is an existing directory. -/
def envDestLink : Env :=
  ⟨fun _ _ => none, fun _ _ => none, fun _ => none, fun _ => none,
    fun _ => none, fun _ => none, fun _ _ => none,
    fun p => if p = ["dir"] then .ok (.symlink "real") else .ok (.directory 493 [])⟩

/-- The child names listed in a directory. -/
def namesOf (items : List DirItem) : List String :=
  items.filterMap fun item =>
    match item with
    | .ok name _ => some name
    | .err _ => none

/-- Boolean pairwise-distinctness of a list of names. -/
def nodupB : List String → Bool
  | [] => true
  | x :: xs => (!(xs.contains x)) && nodupB xs

mutual
/-- Every directory listing in the tree has pairwise-distinct child
names (always the case for a real filesystem listing). -/
def treeNamesNodup : FNode → Bool
  | .directory _ entries => nodupB (namesOf entries) && itemsNamesNodup entries
  | _ => true
termination_by structural node => node

/-- All child subtrees have pairwise-distinct listings. -/
def itemsNamesNodup : List DirItem → Bool
  | [] => true
  | .ok _ child :: rest => treeNamesNodup child && itemsNamesNodup rest
  | .err _ :: rest => itemsNamesNodup rest
termination_by structural items => items
end

/-- The `directory` case of `copy_file_impl` is exactly a call to
`copy_directory`, as in the source. -/
theorem copyFileImpl_directory_eq (env : Env) (mode : Nat) (entries : List DirItem)
    (src dest : Path) :
    copyFileImpl env (.directory mode entries) src dest =
      copyDirectory env mode entries src dest := rfl

/-- The per-entry closure on an `Ok` entry is exactly `copy_file` on
`(entry.path(), dest.join(entry.file_name()))`, as in the source. -/
theorem copyChildren_cons_ok (env : Env) (name : String) (child : FNode)
    (rest : List DirItem) (src dest : Path) :
    copyChildren env (DirItem.ok name child :: rest) src dest =
      copyFile env child (Path.joinName src name) (Path.joinName dest name) ::
        copyChildren env rest src dest := rfl

/-- Unfolding `copy_file` as the error-catching wrapper around
`copy_file_impl`. -/
theorem copyFile_eq_catchErr (env : Env) (node : FNode) (src dest : Path) :
    copyFile env node src dest = catchErr (copyFileImpl env node src dest) := by
  unfold copyFile catchErr
  rcases copyFileImpl env node src dest with ⟨r, tr⟩
  cases r <;> rfl

/-- Processing the listing is a map of the per-entry closure over every
listed item: no item is skipped. -/
theorem copyChildren_eq_map (env : Env) (items : List DirItem) (src dest : Path) :
    copyChildren env items src dest = items.map (childResult env src dest) := by
  induction items with
  | nil => rfl
  | cons item rest ih =>
    cases item <;> simp [copyChildren, childResult, ih, copyFile_eq_catchErr]

/-- The error-catching wrapper preserves the invariant: its boolean equals
the presence of a printed error line. -/
theorem catchErr_inv {x : Except String Bool × List Event} (h : ImplInv x) :
    (catchErr x).1 = (catchErr x).2.any Event.isPrintErr := by
  rcases x with ⟨r, tr⟩
  cases r with
  | error e =>
    simp only [ImplInv] at h
    simp [catchErr, List.any_append, h, Event.isPrintErr]
  | ok hadError =>
    simpa [catchErr] using h

/-- Folding `any identity` over the booleans of per-entry results equals
scanning the concatenated traces for a printed error line, provided each
result satisfies the invariant. -/
theorem any_fst_eq_any_flatten {p : Event → Bool} (results : List (Bool × List Event))
    (h : ∀ r ∈ results, r.1 = r.2.any p) :
    (results.map Prod.fst).any identity = ((results.map Prod.snd).flatten).any p := by
  induction results with
  | nil => rfl
  | cons r rest ih =>
    simp only [List.map_cons, List.flatten_cons, List.any_cons, List.any_append]
    rw [h r (by simp), ih (fun r hr => h r (by simp [hr]))]
    rfl

mutual
/-- The invariant holds for every `copy_file_impl` run. -/
theorem copyFileImpl_inv (env : Env) (node : FNode) (src dest : Path) :
    ImplInv (copyFileImpl env node src dest) := by
  cases node with
  | statError msg => simp [copyFileImpl, ImplInv]
  | regular =>
    cases h : env.copyErr src dest <;>
      simp [copyFileImpl, h, ImplInv, Event.isPrintErr]
  | symlink target =>
    cases h1 : env.readLinkErr src <;>
      cases h2 : env.symlinkErr target dest <;>
        simp [copyFileImpl, h1, h2, ImplInv, Event.isPrintErr]
  | fifo mode =>
    cases h : env.mkfifoErr dest <;>
      simp [copyFileImpl, h, ImplInv, Event.isPrintErr]
  | socket => simp [copyFileImpl, ImplInv]
  | blockDevice mode =>
    cases h : env.devErr src dest <;>
      simp [copyFileImpl, h, ImplInv, Event.isPrintErr]
  | charDevice mode =>
    cases h : env.devErr src dest <;>
      simp [copyFileImpl, h, ImplInv, Event.isPrintErr]
  | directory mode entries =>
    cases hc : env.createDirErr dest with
    | some m => simp [copyFileImpl, hc, ImplInv]
    | none =>
      cases hr : env.readDirErr src with
      | some m => simp [copyFileImpl, hc, hr, ImplInv, Event.isPrintErr]
      | none =>
        have hall := copyChildren_inv env entries src dest
        simp only [copyFileImpl, hc, hr, ImplInv]
        rw [any_fst_eq_any_flatten _ hall]
        simp [Event.isPrintErr]

/-- Every per-entry result produced from a directory listing satisfies the
invariant of `catchErr_inv`. -/
theorem copyChildren_inv (env : Env) (items : List DirItem) (src dest : Path) :
    ∀ r ∈ copyChildren env items src dest, r.1 = r.2.any Event.isPrintErr := by
  cases items with
  | nil => simp [copyChildren]
  | cons item rest =>
    cases item with
    | ok name child =>
      intro r hr
      rw [copyChildren] at hr
      rcases List.mem_cons.mp hr with h | h
      · subst h
        exact catchErr_inv (copyFileImpl_inv env child _ _)
      · exact copyChildren_inv env rest src dest r h
    | err msg =>
      intro r hr
      rw [copyChildren] at hr
      rcases List.mem_cons.mp hr with h | h
      · subst h; simp [Event.isPrintErr]
      · exact copyChildren_inv env rest src dest r h
end

/-- The had-error boolean of `copy_file` equals the presence of a printed
error line in its trace. -/
theorem copyFile_inv (env : Env) (node : FNode) (src dest : Path) :
    (copyFile env node src dest).1 = (copyFile env node src dest).2.any Event.isPrintErr := by
  rw [copyFile_eq_catchErr]
  exact catchErr_inv (copyFileImpl_inv env node src dest)

/-- Splitting the last element off `x :: (ys ++ [d])` recovers
`(x :: ys, d)`. -/
theorem splitLastAux_append (x : Path) (ys : List Path) (d : Path) :
    splitLastAux x (ys ++ [d]) = (x :: ys, d) := by
  induction ys generalizing x with
  | nil => rfl
  | cons y ys ih => simp [splitLastAux, ih]

/-- With at least two sources, `fcp` on `sources ++ [dest]` runs
`copy_many sources dest`. -/
theorem fcp_multi (env : Env) (tree : Path → FNode) (s₁ s₂ : Path)
    (rest : List Path) (dest : Path) :
    fcp env tree ((s₁ :: s₂ :: rest) ++ [dest]) =
      copyMany env tree (s₁ :: s₂ :: rest) dest := by
  cases rest with
  | nil => simp [fcp, splitLastAux]
  | cons c cs => simp [fcp, splitLastAux_append, splitLastAux]

/-- The per-source closure of `copy_many` satisfies the same invariant:
its boolean equals the presence of a printed error line in its trace. -/
theorem copyManyItem_inv (env : Env) (tree : Path → FNode) (dest source : Path) :
    (copyManyItem env tree dest source).1 =
      (copyManyItem env tree dest source).2.any Event.isPrintErr := by
  cases h : Path.fileNameOf source with
  | none => simp [copyManyItem, h, Event.isPrintErr]
  | some name =>
    simp only [copyManyItem, h]
    exact copyFile_inv env (tree source) source (Path.joinName dest name)

/-- Exit-status contract of `copy_many`: the exit code is nonzero exactly
when some error line was printed (either the fatal destination pre-check
message or some per-source failure). -/
theorem copyMany_exit_iff (env : Env) (tree : Path → FNode) (sources : List Path)
    (dest : Path) :
    exitCode (copyMany env tree sources dest).1 = 1 ↔
      (copyMany env tree sources dest).2.any Event.isPrintErr = true := by
  cases hl : env.lstat dest with
  | error m => simp [copyMany, hl, exitCode, Event.isPrintErr]
  | ok metadata =>
    cases hd : isDirNode metadata with
    | false => simp [copyMany, hl, hd, exitCode, Event.isPrintErr]
    | true =>
      have hall : ∀ r ∈ sources.map (copyManyItem env tree dest),
          r.1 = r.2.any Event.isPrintErr := by
        intro r hr
        rcases List.mem_map.mp hr with ⟨s, _, rfl⟩
        exact copyManyItem_inv env tree dest s
      simp only [copyMany, hl, hd, if_true]
      rw [any_fst_eq_any_flatten _ hall]
      cases h : ((sources.map (copyManyItem env tree dest)).map Prod.snd).flatten.any
          Event.isPrintErr <;> simp [exitCode, h]

/-- Claim C1.  For every invocation, fcp signals overall failure (non-zero
exit) if and only if at least one entry anywhere in the whole operation
failed, where every failure — a per-entry failure anywhere in the tree as
well as a fatal pre-check failure — is an error line on the error stream:
the exit code is 1 exactly when the run printed at least one error line,
and 0 (success) exactly when every entry succeeded silently. -/
theorem fcp_exit_nonzero_iff_some_failure (env : Env) (tree : Path → FNode)
    (args : List Path) :
    exitCode (fcp env tree args).1 = 1 ↔
      (fcp env tree args).2.any Event.isPrintErr = true := by
  match args with
  | [] => simp [fcp, exitCode, Event.isPrintErr]
  | [_] => simp [fcp, exitCode, Event.isPrintErr]
  | [source, dest] =>
    have h := copyFile_inv env (tree source) source dest
    rcases hcf : copyFile env (tree source) source dest with ⟨hadError, tr⟩
    rw [hcf] at h
    cases hadError <;> simp_all [fcp, hcf, exitCode]
  | a :: b :: c :: rest =>
    have h := copyMany_exit_iff env tree (splitLastAux a (b :: c :: rest)).1
      (splitLastAux a (b :: c :: rest)).2
    simpa [fcp] using h

/-- Mapping then testing a predicate is testing the composed predicate. -/
theorem any_map_general {α β : Type} (l : List α) (f : α → β) (p : β → Bool) :
    (l.map f).any p = l.any fun a => p (f a) := by
  induction l <;> simp_all

/-- Claim C2.  For every directory copy, each child entry's failure is caught,
printed, and folded into the aggregated boolean without canceling the
processing of the other sibling entries (the run is exactly the map of
the per-entry closure over every listed entry), and `copy_directory`
returns true exactly when some child entry, the destination-directory
creation, or the source-directory listing failed. -/
theorem copyDirectory_failsoft_aggregation (env : Env) (mode : Nat)
    (entries : List DirItem) (src dest : Path) :
    (∀ m, env.createDirErr dest = some m →
        copyDirectory env mode entries src dest = (.error m, []))
  ∧ (∀ m, env.createDirErr dest = none → env.readDirErr src = some m →
        copyDirectory env mode entries src dest =
          (.error m, [Event.dirCreate dest mode]))
  ∧ (env.createDirErr dest = none → env.readDirErr src = none →
      copyDirectory env mode entries src dest =
        (.ok (entries.any fun item => (childResult env src dest item).1),
          Event.dirCreate dest mode ::
            (entries.map fun item => (childResult env src dest item).2).flatten)
      ∧ ((entries.any fun item => (childResult env src dest item).1) = true ↔
          ∃ item ∈ entries, (childResult env src dest item).1 = true)) := by
  refine ⟨fun m hm => by simp [copyDirectory, hm], fun m hc hr => by simp [copyDirectory, hc, hr], fun hc hr => ⟨?_, List.any_eq_true⟩⟩
  simp only [copyDirectory, hc, hr, copyChildren_eq_map]
  rw [any_map_general, any_map_general, List.map_map]
  simp [identity, Function.comp_def]

/-- Witness for C2: a directory whose middle entry is a listing error
still processes both named siblings, prints the error in between, and
aggregates to a had-error result. -/
theorem copyDirectory_failsoft_aggregation_witness :
    copyDirectory envOK 7
        [DirItem.ok "a" .regular, DirItem.err "boom", DirItem.ok "b" .regular]
        ["s"] ["d"] =
      (.ok true,
        [Event.dirCreate ["d"] 7, Event.fileCopy ["s", "a"] ["d", "a"],
          Event.printErr "boom", Event.fileCopy ["s", "b"] ["d", "b"]]) :=
  (((copyDirectory_failsoft_aggregation envOK 7
      [DirItem.ok "a" .regular, DirItem.err "boom", DirItem.ok "b" .regular]
      ["s"] ["d"]).2.2 rfl rfl).1).trans (by rfl)

/-- Claim C5.  For every directory entry, the destination directory is created
with the source directory's permission mode strictly before any child's
copy is attempted (it is the head of the subtree's trace); if creating
the destination directory or listing the source directory fails, no
child event occurs and only this subtree is marked failed, the error
surfacing as an ordinary printed error line through `copy_file`. -/
theorem copyDirectory_parent_before_children (env : Env) (mode : Nat)
    (entries : List DirItem) (src dest : Path) :
    (env.createDirErr dest = none → env.readDirErr src = none →
      (copyDirectory env mode entries src dest).2 =
        Event.dirCreate dest mode ::
          (entries.map fun item => (childResult env src dest item).2).flatten)
  ∧ (∀ m, env.createDirErr dest = some m →
      copyFile env (.directory mode entries) src dest = (true, [Event.printErr m]))
  ∧ (∀ m, env.createDirErr dest = none → env.readDirErr src = some m →
      copyFile env (.directory mode entries) src dest =
        (true, [Event.dirCreate dest mode, Event.printErr m])) := by
  refine ⟨fun hc hr => ?_, fun m hm => ?_, fun m hc hr => ?_⟩
  · simp [copyDirectory, hc, hr, copyChildren_eq_map, Function.comp_def]
  · simp [copyFile_eq_catchErr, copyFileImpl, hm, catchErr]
  · simp [copyFile_eq_catchErr, copyFileImpl, hc, hr, catchErr]

/-- Witness for C5: with directory creation denied, the subtree reports
one error and produces no child event. -/
theorem copyDirectory_parent_before_children_witness :
    copyFile envDirDenied (.directory 7 [DirItem.ok "a" .regular]) ["s"] ["d"] =
      (true, [Event.printErr "d: permission denied"]) :=
  (copyDirectory_parent_before_children envDirDenied 7
    [DirItem.ok "a" .regular] ["s"] ["d"]).2.1 "d: permission denied" rfl

/-- Claim C3.  For every invocation with 3 or more arguments, the last argument
must already exist and be a directory as seen by its symlink-unaware
metadata; if the metadata read fails or the metadata is not a directory,
the whole invocation fails fatally with only the fatal message printed
and zero destination mutations — no copy starts. -/
theorem fcp_dest_precheck_fatal (env : Env) (tree : Path → FNode)
    (s₁ s₂ : Path) (rest : List Path) (dest : Path) :
    (∀ m, env.lstat dest = .error m →
        fcp env tree ((s₁ :: s₂ :: rest) ++ [dest]) = (.fatalErr m, [Event.printErr m])
        ∧ writes (fcp env tree ((s₁ :: s₂ :: rest) ++ [dest])).2 = [])
  ∧ (∀ metadata, env.lstat dest = .ok metadata → isDirNode metadata = false →
        fcp env tree ((s₁ :: s₂ :: rest) ++ [dest]) =
          (.fatalErr (Path.display dest ++ " is not a directory"),
            [Event.printErr (Path.display dest ++ " is not a directory")])
        ∧ writes (fcp env tree ((s₁ :: s₂ :: rest) ++ [dest])).2 = []) := by
  constructor
  · intro m hm
    have h : fcp env tree ((s₁ :: s₂ :: rest) ++ [dest]) = (.fatalErr m, [Event.printErr m]) := by
      rw [fcp_multi]; simp [copyMany, hm]
    exact ⟨h, by rw [h]; rfl⟩
  · intro metadata hok hdir
    have h : fcp env tree ((s₁ :: s₂ :: rest) ++ [dest]) =
        (.fatalErr (Path.display dest ++ " is not a directory"),
          [Event.printErr (Path.display dest ++ " is not a directory")]) := by
      rw [fcp_multi]; simp [copyMany, hok, hdir]
    exact ⟨h, by rw [h]; rfl⟩

/-- Witness for C3: three arguments with a nonexistent destination fail
fatally with zero destination mutations. -/
theorem fcp_dest_precheck_fatal_witness :
    fcp envNoDest (fun _ => .regular) [["a"], ["b"], ["dir"]] =
      (.fatalErr "dir: No such file or directory",
        [Event.printErr "dir: No such file or directory"])
    ∧ writes (fcp envNoDest (fun _ => .regular) [["a"], ["b"], ["dir"]]).2 = [] :=
  (fcp_dest_precheck_fatal envNoDest (fun _ => .regular) ["a"] ["b"] [] ["dir"]).1
    "dir: No such file or directory" rfl

/-- Claim C4.  For every source entry classified as a socket, the copy always
fails: the result is had-error with exactly one printed error line whose
message is the offending source path followed by
`: sockets cannot be copied`, and no destination mutation occurs. -/
theorem socket_always_rejected (env : Env) (src dest : Path) :
    copyFile env .socket src dest =
      (true, [Event.printErr (Path.display src ++ ": " ++ "sockets cannot be copied")])
    ∧ writes (copyFile env .socket src dest).2 = [] := by
  constructor
  · simp [copyFile_eq_catchErr, copyFileImpl, catchErr]
  · simp [copyFile_eq_catchErr, copyFileImpl, catchErr, writes, Event.writesTo]

/-- Claim C8.  For every source entry classified as a symlink, the copy reads
the link target without dereferencing and creates a symlink at the
destination carrying that target string verbatim — the created link's
target is exactly the string read from the source link. -/
theorem symlink_target_verbatim (env : Env) (target : String) (src dest : Path)
    (hread : env.readLinkErr src = none)
    (hcreate : env.symlinkErr target dest = none) :
    copyFile env (.symlink target) src dest =
      (false, [Event.linkCreate dest target]) := by
  simp [copyFile_eq_catchErr, copyFileImpl, hread, hcreate, catchErr]

/-- Witness for C8: a link with target `../t` is recreated with the
identical target string. -/
theorem symlink_target_verbatim_witness :
    copyFile envOK (.symlink "../t") ["s"] ["d"] =
      (false, [Event.linkCreate ["d"] "../t"]) :=
  symlink_target_verbatim envOK "../t" ["s"] ["d"] rfl rfl

/-- Claim C9.  For every source whose classification (metadata read) fails, the
copy reports exactly that error and returns had-error, with no
destination mutation: the source is classified before any
destination-side operation is attempted. -/
theorem stat_failure_reported_without_dest_mutation (env : Env) (msg : String)
    (src dest : Path) :
    copyFile env (.statError msg) src dest = (true, [Event.printErr msg])
    ∧ writes (copyFile env (.statError msg) src dest).2 = [] := by
  constructor
  · simp [copyFile_eq_catchErr, copyFileImpl, catchErr]
  · simp [copyFile_eq_catchErr, copyFileImpl, catchErr, writes, Event.writesTo]

/-- Claim C10.  In multi-copy mode the destination check uses symlink-unaware
metadata: a destination that is itself a symlink — even one whose target
path is an existing directory — is rejected as a fatal
`is not a directory` error instead of being followed. -/
theorem fcp_dest_symlink_not_followed (env : Env) (tree : Path → FNode)
    (s₁ s₂ : Path) (rest : List Path) (dest tpath : Path) (target : String)
    (mode : Nat) (entries : List DirItem)
    (hlink : env.lstat dest = .ok (.symlink target))
    (hname : Path.display tpath = target)
    (htargetdir : env.lstat tpath = .ok (.directory mode entries)) :
    fcp env tree ((s₁ :: s₂ :: rest) ++ [dest]) =
      (.fatalErr (Path.display dest ++ " is not a directory"),
        [Event.printErr (Path.display dest ++ " is not a directory")]) := by
  rw [fcp_multi]
  simp [copyMany, hlink, isDirNode]

/-- Witness for C10: the destination `dir` is a symlink to the existing
directory `real`, and the invocation is rejected fatally. -/
theorem fcp_dest_symlink_not_followed_witness :
    fcp envDestLink (fun _ => .regular) [["a"], ["b"], ["dir"]] =
      (.fatalErr "dir is not a directory", [Event.printErr "dir is not a directory"]) :=
  fcp_dest_symlink_not_followed envDestLink (fun _ => .regular) ["a"] ["b"] []
    ["dir"] ["real"] "real" 493 [] rfl rfl rfl

/-- Claim C6.  For every invocation with more than 2 arguments whose destination
passes the directory pre-check, the run is the map of the per-source
closure over every source (so one source's failure does not block the
others), each source with an extractable file name is copied into
`dest/basename(source)`, and a source with no extractable file name is
reported as an error for that source only, with a per-source result of
true. -/
theorem fcp_multi_per_source (env : Env) (tree : Path → FNode)
    (s₁ s₂ : Path) (rest : List Path) (dest : Path) (metadata : FNode)
    (hok : env.lstat dest = .ok metadata) (hdir : isDirNode metadata = true) :
    fcp env tree ((s₁ :: s₂ :: rest) ++ [dest]) =
      (.done ((((s₁ :: s₂ :: rest).map (copyManyItem env tree dest)).map Prod.fst).any identity),
        (((s₁ :: s₂ :: rest).map (copyManyItem env tree dest)).map Prod.snd).flatten)
    ∧ (∀ s, Path.fileNameOf s = none →
        copyManyItem env tree dest s =
          (true, [Event.printErr (Path.display s ++ ": invalid file path")]))
    ∧ (∀ s name, Path.fileNameOf s = some name →
        copyManyItem env tree dest s =
          copyFile env (tree s) s (Path.joinName dest name)) := by
  refine ⟨?_, fun s hs => by simp [copyManyItem, hs], fun s name hs => by simp [copyManyItem, hs]⟩
  rw [fcp_multi]
  simp [copyMany, hok, hdir]

/-- Witness for C6: of three sources, the middle one (the path `..`) has
no extractable file name; it alone fails while the other two are copied
into the destination directory under their basenames. -/
theorem fcp_multi_per_source_witness :
    fcp envOK (fun _ => .regular) [["a", "x"], [".."], ["b"], ["dir"]] =
      (.done true,
        [Event.fileCopy ["a", "x"] ["dir", "x"],
          Event.printErr "..: invalid file path",
          Event.fileCopy ["b"] ["dir", "b"]]) :=
  ((fcp_multi_per_source envOK (fun _ => .regular) ["a", "x"] [".."] [["b"]]
      ["dir"] (.directory 493 []) rfl rfl).1).trans (by decide)

/-- Extracting destination writes distributes over trace concatenation. -/
theorem writes_append (tr₁ tr₂ : List Event) :
    writes (tr₁ ++ tr₂) = writes tr₁ ++ writes tr₂ := by
  simp [writes]

/-- The error-catching wrapper adds no destination write. -/
theorem writes_catchErr (x : Except String Bool × List Event) :
    writes (catchErr x).2 = writes x.2 := by
  rcases x with ⟨r, tr⟩
  cases r <;> simp [catchErr, writes_append, writes, Event.writesTo]

/-- Paths extending the same directory by different names are distinct. -/
theorem ne_of_prefix_distinct_names {d p₁ p₂ : Path} {n₁ n₂ : String}
    (h₁ : Path.joinName d n₁ <+: p₁) (h₂ : Path.joinName d n₂ <+: p₂)
    (hne : n₁ ≠ n₂) : p₁ ≠ p₂ := by
  obtain ⟨t₁, rfl⟩ := h₁
  obtain ⟨t₂, rfl⟩ := h₂
  intro he
  simp only [Path.joinName, List.append_assoc, List.singleton_append,
    List.append_cancel_left_eq, List.cons.injEq] at he
  exact hne he.1

/-- A path strictly below a directory is not the directory itself. -/
theorem ne_of_prefix_extend {d p : Path} {n : String}
    (h : Path.joinName d n <+: p) : p ≠ d := by
  obtain ⟨t, rfl⟩ := h
  intro he
  have := congrArg List.length he
  simp [Path.joinName] at this

/-- Distinct names imply the head name is not among the rest. -/
theorem nodupB_cons {x : String} {xs : List String}
    (h : nodupB (x :: xs) = true) : x ∉ xs ∧ nodupB xs = true := by
  simp only [nodupB, Bool.and_eq_true, Bool.not_eq_true'] at h
  refine ⟨?_, h.2⟩
  have h₁ := h.1
  simp at h₁
  exact h₁

/-- The names of a listing headed by a named entry. -/
theorem namesOf_cons_ok (name : String) (child : FNode) (rest : List DirItem) :
    namesOf (DirItem.ok name child :: rest) = name :: namesOf rest := by
  simp [namesOf, List.filterMap_cons]

/-- The names of a listing headed by an iteration error. -/
theorem namesOf_cons_err (msg : String) (rest : List DirItem) :
    namesOf (DirItem.err msg :: rest) = namesOf rest := by
  simp [namesOf, List.filterMap_cons]

mutual
/-- Every destination write of `copy_file_impl` lies at or below the
destination path. -/
theorem writes_below_impl (env : Env) (node : FNode) (src dest : Path) :
    ∀ p ∈ writes (copyFileImpl env node src dest).2, dest <+: p := by
  cases node with
  | statError msg => simp [copyFileImpl, writes]
  | regular =>
    cases h : env.copyErr src dest <;>
      simp [copyFileImpl, h, writes, Event.writesTo]
  | symlink target =>
    cases h₁ : env.readLinkErr src <;> cases h₂ : env.symlinkErr target dest <;>
      simp [copyFileImpl, h₁, h₂, writes, Event.writesTo]
  | fifo mode =>
    cases h : env.mkfifoErr dest <;>
      simp [copyFileImpl, h, writes, Event.writesTo]
  | socket => simp [copyFileImpl, writes]
  | blockDevice mode =>
    cases h : env.devErr src dest <;>
      simp [copyFileImpl, h, writes, Event.writesTo]
  | charDevice mode =>
    cases h : env.devErr src dest <;>
      simp [copyFileImpl, h, writes, Event.writesTo]
  | directory mode entries =>
    cases hc : env.createDirErr dest with
    | some m => simp [copyFileImpl, hc, writes]
    | none =>
      cases hr : env.readDirErr src with
      | some m => simp [copyFileImpl, hc, hr, writes, Event.writesTo]
      | none =>
        intro p hp
        simp only [copyFileImpl, hc, hr] at hp
        rw [writes] at hp
        simp only [List.filterMap_cons] at hp
        simp only [Event.writesTo, Option.some.injEq] at hp
        rcases List.mem_cons.mp hp with rfl | hp
        · exact List.prefix_refl _
        · rcases writes_below_children env entries src dest p (by rw [writes]; exact hp)
            with ⟨name, _, hpre⟩
          calc dest <+: Path.joinName dest name := ⟨[name], rfl⟩
            _ <+: p := hpre

/-- Every destination write of a child result lies below the destination
joined with one of the listed child names. -/
theorem writes_below_children (env : Env) (items : List DirItem) (src dest : Path) :
    ∀ p ∈ writes ((copyChildren env items src dest).map Prod.snd).flatten,
      ∃ name ∈ namesOf items, Path.joinName dest name <+: p := by
  cases items with
  | nil => simp [copyChildren, writes]
  | cons item rest =>
    cases item with
    | ok name child =>
      intro p hp
      rw [copyChildren] at hp
      simp only [List.map_cons, List.flatten_cons] at hp
      rw [writes_append] at hp
      rcases List.mem_append.mp hp with hp | hp
      · rw [writes_catchErr] at hp
        refine ⟨name, ?_, writes_below_impl env child _ _ p hp⟩
        rw [namesOf_cons_ok]
        exact List.mem_cons_self _ _
      · rcases writes_below_children env rest src dest p hp with ⟨name₂, hm, hpre⟩
        refine ⟨name₂, ?_, hpre⟩
        rw [namesOf_cons_ok]
        exact List.mem_cons_of_mem _ hm
    | err msg =>
      intro p hp
      rw [copyChildren] at hp
      simp only [List.map_cons, List.flatten_cons] at hp
      rw [writes_append] at hp
      rcases List.mem_append.mp hp with hp | hp
      · simp [writes, Event.writesTo] at hp
      · rcases writes_below_children env rest src dest p hp with ⟨name₂, hm, hpre⟩
        refine ⟨name₂, ?_, hpre⟩
        rw [namesOf_cons_err]
        exact hm
end

mutual
/-- With pairwise-distinct listing names, `copy_file_impl` never writes
the same destination path twice. -/
theorem writes_nodup_impl (env : Env) (node : FNode) (src dest : Path)
    (h : treeNamesNodup node = true) :
    (writes (copyFileImpl env node src dest).2).Nodup := by
  cases node with
  | statError msg => simp [copyFileImpl, writes]
  | regular =>
    cases hc : env.copyErr src dest <;>
      simp [copyFileImpl, hc, writes, Event.writesTo]
  | symlink target =>
    cases h₁ : env.readLinkErr src <;> cases h₂ : env.symlinkErr target dest <;>
      simp [copyFileImpl, h₁, h₂, writes, Event.writesTo]
  | fifo mode =>
    cases hc : env.mkfifoErr dest <;>
      simp [copyFileImpl, hc, writes, Event.writesTo]
  | socket => simp [copyFileImpl, writes]
  | blockDevice mode =>
    cases hc : env.devErr src dest <;>
      simp [copyFileImpl, hc, writes, Event.writesTo]
  | charDevice mode =>
    cases hc : env.devErr src dest <;>
      simp [copyFileImpl, hc, writes, Event.writesTo]
  | directory mode entries =>
    rw [treeNamesNodup, Bool.and_eq_true] at h
    cases hc : env.createDirErr dest with
    | some m => simp [copyFileImpl, hc, writes]
    | none =>
      cases hr : env.readDirErr src with
      | some m => simp [copyFileImpl, hc, hr, writes, Event.writesTo]
      | none =>
        simp only [copyFileImpl, hc, hr]
        rw [writes]
        simp only [List.filterMap_cons, Event.writesTo]
        rw [List.nodup_cons]
        constructor
        · intro hmem
          rcases writes_below_children env entries src dest dest
              (by rw [writes]; exact hmem) with ⟨name, _, hpre⟩
          exact ne_of_prefix_extend hpre rfl
        · exact writes_nodup_children env entries src dest h.2 h.1

/-- With pairwise-distinct listing names, the concatenated child traces
never write the same destination path twice: distinct siblings write in
disjoint regions, and each subtree is duplicate-free. -/
theorem writes_nodup_children (env : Env) (items : List DirItem) (src dest : Path)
    (h : itemsNamesNodup items = true) (hn : nodupB (namesOf items) = true) :
    (writes ((copyChildren env items src dest).map Prod.snd).flatten).Nodup := by
  cases items with
  | nil => simp [copyChildren, writes]
  | cons item rest =>
    cases item with
    | ok name child =>
      rw [itemsNamesNodup, Bool.and_eq_true] at h
      have hn' := nodupB_cons (by rw [namesOf_cons_ok] at hn; exact hn)
      rw [copyChildren]
      simp only [List.map_cons, List.flatten_cons]
      rw [writes_append]
      refine List.Nodup.append ?_ ?_ ?_
      · rw [writes_catchErr]
        exact writes_nodup_impl env child _ _ h.1
      · exact writes_nodup_children env rest src dest h.2 hn'.2
      · intro p hp₁ hp₂
        rw [writes_catchErr] at hp₁
        have hpre₁ := writes_below_impl env child _ _ p hp₁
        rcases writes_below_children env rest src dest p hp₂ with ⟨name₂, hm, hpre₂⟩
        exact ne_of_prefix_distinct_names hpre₁ hpre₂
          (fun he => hn'.1 (he ▸ hm)) rfl
    | err msg =>
      have hn' : nodupB (namesOf rest) = true := by
        rw [namesOf_cons_err] at hn; exact hn
      rw [itemsNamesNodup] at h
      rw [copyChildren]
      simp only [List.map_cons, List.flatten_cons]
      rw [writes_append]
      have : writes [Event.printErr msg] = [] := rfl
      rw [this]
      simpa using writes_nodup_children env rest src dest h hn'
end

/-- Every destination write of `copy_file` lies at or below the
destination path. -/
theorem writes_below_copyFile (env : Env) (node : FNode) (src dest : Path) :
    ∀ p ∈ writes (copyFile env node src dest).2, dest <+: p := by
  rw [copyFile_eq_catchErr]
  intro p hp
  rw [writes_catchErr] at hp
  exact writes_below_impl env node src dest p hp

/-- With pairwise-distinct listing names, `copy_file` never writes the
same destination path twice. -/
theorem writes_nodup_copyFile (env : Env) (node : FNode) (src dest : Path)
    (h : treeNamesNodup node = true) :
    (writes (copyFile env node src dest).2).Nodup := by
  rw [copyFile_eq_catchErr, writes_catchErr]
  exact writes_nodup_impl env node src dest h

/-- Every destination write of a per-source run of `copy_many` lies below
the destination directory joined with one of the sources' file names. -/
theorem writes_below_manyTrace (env : Env) (tree : Path → FNode) (dest : Path)
    (sources : List Path) :
    ∀ p ∈ writes ((sources.map (copyManyItem env tree dest)).map Prod.snd).flatten,
      ∃ name ∈ sources.filterMap Path.fileNameOf, Path.joinName dest name <+: p := by
  induction sources with
  | nil => simp [writes]
  | cons s rest ih =>
    intro p hp
    simp only [List.map_cons, List.flatten_cons] at hp
    rw [writes_append] at hp
    rcases List.mem_append.mp hp with hp | hp
    · cases hs : Path.fileNameOf s with
      | none => simp [copyManyItem, hs, writes, Event.writesTo] at hp
      | some name =>
        rw [copyManyItem, hs] at hp
        refine ⟨name, ?_, writes_below_copyFile env (tree s) s _ p hp⟩
        simp [List.filterMap_cons, hs]
    · rcases ih p hp with ⟨name, hm, hpre⟩
      refine ⟨name, ?_, hpre⟩
      rw [List.filterMap_cons]
      cases Path.fileNameOf s <;> simp [hm]

/-- With pairwise-distinct source file names and duplicate-free listings,
the concatenated per-source traces of `copy_many` never write the same
destination path twice. -/
theorem writes_nodup_manyTrace (env : Env) (tree : Path → FNode) (dest : Path)
    (sources : List Path)
    (hnames : nodupB (sources.filterMap Path.fileNameOf) = true)
    (htrees : ∀ s ∈ sources, treeNamesNodup (tree s) = true) :
    (writes ((sources.map (copyManyItem env tree dest)).map Prod.snd).flatten).Nodup := by
  induction sources with
  | nil => simp [writes]
  | cons s rest ih =>
    simp only [List.map_cons, List.flatten_cons]
    rw [writes_append]
    cases hs : Path.fileNameOf s with
    | none =>
      have h₁ : writes (copyManyItem env tree dest s).2 = [] := by
        simp [copyManyItem, hs, writes, Event.writesTo]
      rw [h₁]
      rw [List.filterMap_cons, hs] at hnames
      simpa using ih hnames (fun t ht => htrees t (List.mem_cons_of_mem _ ht))
    | some name =>
      rw [List.filterMap_cons, hs] at hnames
      have hn := nodupB_cons hnames
      refine List.Nodup.append ?_ ?_ ?_
      · rw [copyManyItem, hs]
        exact writes_nodup_copyFile env (tree s) s _ (htrees s (List.mem_cons_self _ _))
      · exact ih hn.2 (fun t ht => htrees t (List.mem_cons_of_mem _ ht))
      · intro p hp₁ hp₂
        rw [copyManyItem, hs] at hp₁
        have hpre₁ := writes_below_copyFile env (tree s) s _ p hp₁
        rcases writes_below_manyTrace env tree dest rest p hp₂ with ⟨name₂, hm, hpre₂⟩
        exact ne_of_prefix_distinct_names hpre₁ hpre₂ (fun he => hn.1 (he ▸ hm)) rfl

/-- Counterexample to claim C7 as stated: in multi-source mode two distinct
source arguments with the same basename (`a/x` and `b/x`) are both
written to the one destination path `dir/x`, so the source-to-destination
mapping is not injective for every list of source arguments. -/
theorem dest_path_written_twice :
    (["a", "x"] : Path) ≠ ["b", "x"]
    ∧ (fcp envOK (fun _ => .regular) [["a", "x"], ["b", "x"], ["dir"]]).2 =
        [Event.fileCopy ["a", "x"] ["dir", "x"], Event.fileCopy ["b", "x"] ["dir", "x"]]
    ∧ ¬ (writes (fcp envOK (fun _ => .regular) [["a", "x"], ["b", "x"], ["dir"]]).2).Nodup := by
  refine ⟨by decide, by rfl, by decide⟩

/-- Claim C7, amended.  No destination path is ever written by two tasks
provided the sources' extractable file names are pairwise distinct (and
every directory listing has pairwise-distinct child names, as a real
listing does): under that proviso every destination path in a
multi-source run is written at most once.  The unamended claim — for any
list of source arguments — fails when two sources share a basename, see
the counterexample. -/
theorem dest_paths_exclusive (env : Env) (tree : Path → FNode)
    (s₁ s₂ : Path) (rest : List Path) (dest : Path) (metadata : FNode)
    (hok : env.lstat dest = .ok metadata) (hdir : isDirNode metadata = true)
    (hnames : nodupB ((s₁ :: s₂ :: rest).filterMap Path.fileNameOf) = true)
    (htrees : ∀ s ∈ s₁ :: s₂ :: rest, treeNamesNodup (tree s) = true) :
    (writes (fcp env tree ((s₁ :: s₂ :: rest) ++ [dest])).2).Nodup := by
  rw [fcp_multi]
  have h : (copyMany env tree (s₁ :: s₂ :: rest) dest).2 =
      (((s₁ :: s₂ :: rest).map (copyManyItem env tree dest)).map Prod.snd).flatten := by
    simp [copyMany, hok, hdir]
  rw [h]
  exact writes_nodup_manyTrace env tree dest (s₁ :: s₂ :: rest) hnames htrees

/-- Witness for the amended C7: three sources with pairwise-distinct
basenames, one of them a directory tree, produce pairwise-distinct
destination writes. -/
theorem dest_paths_exclusive_witness :
    (writes (fcp envOK
        (fun s => if s = ["t"] then .directory 7 [DirItem.ok "x" .regular] else .regular)
        [["a", "x"], ["t"], ["b"], ["dir"]]).2).Nodup :=
  dest_paths_exclusive envOK
    (fun s => if s = ["t"] then .directory 7 [DirItem.ok "x" .regular] else .regular)
    ["a", "x"] ["t"] [["b"]] ["dir"] (.directory 493 []) rfl rfl (by decide)
    (by decide)

end Fcp
